import Mathlib

/-!
Shallow embedding of `src/streamlit_app.py` (a Streamlit viewer for JSONL
rollout transcripts).  Python values parsed from JSON are modelled by the
inductive `Json`; Python exceptions are modelled by the error type `Err`
through `Except`.  The loader `load_rollouts` and the renderer
`render_rollout` are translated line by line from the source; Python's
`json.loads` is modelled by the recursive-descent parser `json_loads`
(strict JSON grammar, as the stdlib decoder implements), `str.splitlines`
by `splitlines`, `str.strip` by `pyStrip`, and the stable built-in
`sorted` by the verified stable `List.mergeSort`.
-/

namespace Rollouts

/-- Python exceptions that the program can raise (or, for
`jsonDecodeError`, catch). -/
inductive Err where
  | jsonDecodeError
  | keyError
  | indexError
  | typeError
  | attributeError
deriving DecidableEq

/-- JSON values as produced by `json.loads`: Python `None`, `bool`, numbers
(kept as their source lexeme; no claim inspects numeric magnitude), `str`,
`list`, `dict` (association list in insertion order). -/
inductive Json where
  | null
  | bool (b : Bool)
  | num (lexeme : String)
  | str (s : String)
  | arr (xs : List Json)
  | obj (kvs : List (String × Json))

/-- Dictionary lookup; with duplicate keys the last occurrence wins, as in
a Python dict built by successive assignment. -/
def lookupKv (kvs : List (String × Json)) (k : String) : Option Json :=
  (kvs.reverse.find? (fun p => p.1 == k)).map (·.2)

/-- Whether the digits of a numeric lexeme before any exponent contain a
nonzero digit, i.e. whether the Python number is truthy. -/
def numTruthy (s : String) : Bool :=
  (s.data.takeWhile (fun c => !(c == 'e' || c == 'E'))).any
    (fun c => decide ('1' ≤ c) && decide (c ≤ '9'))

/-- Python truthiness of a JSON value (`bool(v)`). -/
def truthy : Json → Bool
  | .null => false
  | .bool b => b
  | .num s => numTruthy s
  | .str s => !s.isEmpty
  | .arr xs => !xs.isEmpty
  | .obj kvs => !kvs.isEmpty

/-- A Python subscript: either a string key or a non-negative integer
index (the program only subscripts with `"..."`, `0` and `1`). -/
inductive PyKey where
  | strKey (s : String)
  | intKey (n : Nat)

/-- Python `v[key]` on a JSON value: dict lookup (`KeyError` when absent,
and an integer subscript never matches a JSON dict's string keys), list
indexing (`IndexError` out of range), string indexing, and `TypeError`
for unsubscriptable values or wrongly-typed subscripts. -/
def getItem : Json → PyKey → Except Err Json
  | .obj kvs, .strKey k =>
      match lookupKv kvs k with
      | some v => .ok v
      | none => .error .keyError
  | .obj _, .intKey _ => .error .keyError
  | .arr xs, .intKey n =>
      match xs.get? n with
      | some v => .ok v
      | none => .error .indexError
  | .arr _, .strKey _ => .error .typeError
  | .str s, .intKey n =>
      match s.data.get? n with
      | some c => .ok (.str (String.mk [c]))
      | none => .error .indexError
  | .str _, .strKey _ => .error .typeError
  | _, _ => .error .typeError

/-- Python `d.get(k)` / `d.get(k, default)` resolved to an `Option`:
`AttributeError` when the receiver is not a dict. -/
def dictGet (j : Json) (k : String) : Except Err (Option Json) :=
  match j with
  | .obj kvs => .ok (lookupKv kvs k)
  | _ => .error .attributeError

/-! Model of `str.splitlines` and `str.strip`. -/

/-- Characters Python `str.splitlines` treats as line boundaries. -/
def isLineBreak (c : Char) : Bool :=
  c == '\n' || c == '\r' || c == '\x0b' || c == '\x0c' ||
  c == '\x1c' || c == '\x1d' || c == '\x1e' || c == '\x85' ||
  c == '\u2028' || c == '\u2029'

/-- Worker for `splitlines`: `acc` holds the current line reversed. -/
def splitlinesAux : List Char → List Char → List (List Char)
  | [], acc => if acc.isEmpty then [] else [acc.reverse]
  | '\r' :: '\n' :: cs, acc => acc.reverse :: splitlinesAux cs []
  | c :: cs, acc =>
      if isLineBreak c then acc.reverse :: splitlinesAux cs []
      else splitlinesAux cs (c :: acc)

/-- Python `str.splitlines()` (no trailing empty line, `\r\n` is a single
boundary). -/
def splitlines (cs : List Char) : List (List Char) :=
  splitlinesAux cs []

/-- Characters Python `str.isspace` accepts, the set stripped by
`str.strip()`. -/
def isPySpace (c : Char) : Bool :=
  let n := c.toNat
  (9 ≤ n && n ≤ 13) || n == 32 || (28 ≤ n && n ≤ 31) || n == 0x85 ||
  n == 0xa0 || n == 0x1680 || (0x2000 ≤ n && n ≤ 0x200a) ||
  n == 0x2028 || n == 0x2029 || n == 0x202f || n == 0x205f || n == 0x3000

/-- Python `str.strip()`. -/
def pyStrip (cs : List Char) : List Char :=
  ((cs.dropWhile isPySpace).reverse.dropWhile isPySpace).reverse

/-! Model of `json.loads`: a recursive-descent parser for the strict JSON
grammar used by the stdlib decoder.  Fuel bounds the recursion; the top
level supplies more fuel than any input of its length can consume. -/

/-- JSON inter-token whitespace. -/
def skipWs : List Char → List Char
  | c :: cs => if c == ' ' || c == '\t' || c == '\n' || c == '\r' then skipWs cs else c :: cs
  | [] => []

/-- Hexadecimal digit value. -/
def hexVal (c : Char) : Option Nat :=
  if decide ('0' ≤ c) && decide (c ≤ '9') then some (c.toNat - '0'.toNat)
  else if decide ('a' ≤ c) && decide (c ≤ 'f') then some (c.toNat - 'a'.toNat + 10)
  else if decide ('A' ≤ c) && decide (c ≤ 'F') then some (c.toNat - 'A'.toNat + 10)
  else none

/-- Exactly four hex digits, as in a `\uXXXX` escape. -/
def parseHex4 : List Char → Option (Nat × List Char)
  | a :: b :: c :: d :: rest => do
      let va ← hexVal a
      let vb ← hexVal b
      let vc ← hexVal c
      let vd ← hexVal d
      some (va * 4096 + vb * 256 + vc * 16 + vd, rest)
  | _ => none

/-- Single-character JSON escapes. -/
def escChar : Char → Option Char
  | '"' => some '"'
  | '\\' => some '\\'
  | '/' => some '/'
  | 'b' => some '\x08'
  | 'f' => some '\x0c'
  | 'n' => some '\n'
  | 'r' => some '\r'
  | 't' => some '\t'
  | _ => none

/-- Body of a JSON string after the opening quote: returns the decoded
characters and the input after the closing quote.  Surrogate pairs in
`\u` escapes are combined; raw control characters are rejected (strict
mode). -/
def parseStringBody : Nat → List Char → Option (List Char × List Char)
  | 0, _ => none
  | fuel + 1, cs =>
    match cs with
    | [] => none
    | '"' :: rest => some ([], rest)
    | '\\' :: 'u' :: r => do
        let (n, r1) ← parseHex4 r
        if 0xD800 ≤ n && n < 0xDC00 then
          match r1 with
          | '\\' :: 'u' :: r2 => do
              let (n2, r3) ← parseHex4 r2
              if 0xDC00 ≤ n2 && n2 < 0xE000 then
                let code := 0x10000 + (n - 0xD800) * 0x400 + (n2 - 0xDC00)
                let (tail, rest') ← parseStringBody fuel r3
                some (Char.ofNat code :: tail, rest')
              else do
                let (tail, rest') ← parseStringBody fuel r1
                some (Char.ofNat n :: tail, rest')
          | _ => do
              let (tail, rest') ← parseStringBody fuel r1
              some (Char.ofNat n :: tail, rest')
        else do
          let (tail, rest') ← parseStringBody fuel r1
          some (Char.ofNat n :: tail, rest')
    | '\\' :: c :: r => do
        let e ← escChar c
        let (tail, rest') ← parseStringBody fuel r
        some (e :: tail, rest')
    | '\\' :: [] => none
    | c :: rest =>
        if c.toNat < 0x20 then none
        else do
          let (tail, rest') ← parseStringBody fuel rest
          some (c :: tail, rest')

/-- Longest digit run at the front. -/
def takeDigits : List Char → List Char × List Char
  | c :: cs =>
      if c.isDigit then
        let (ds, r) := takeDigits cs
        (c :: ds, r)
      else ([], c :: cs)
  | [] => ([], [])

/-- Optional fraction part `.digits`; consumed only when well formed,
otherwise left for the caller (which then fails on the leftover). -/
def parseFracPart : List Char → List Char × List Char
  | '.' :: c :: r =>
      if c.isDigit then
        let (ds, r2) := takeDigits r
        ('.' :: c :: ds, r2)
      else ([], '.' :: c :: r)
  | cs => ([], cs)

/-- Optional exponent part `e[+-]?digits`; consumed only when well
formed. -/
def parseExpPart : List Char → List Char × List Char
  | e :: rest =>
      if e == 'e' || e == 'E' then
        match rest with
        | s :: r2 =>
            if s == '+' || s == '-' then
              match r2 with
              | c :: r3 =>
                  if c.isDigit then
                    let (ds, r4) := takeDigits r3
                    (e :: s :: c :: ds, r4)
                  else ([], e :: rest)
              | [] => ([], e :: rest)
            else if s.isDigit then
              let (ds, r3) := takeDigits r2
              (e :: s :: ds, r3)
            else ([], e :: rest)
        | [] => ([], [e])
      else ([], e :: rest)
  | [] => ([], [])

/-- JSON number: `-?(0|[1-9][0-9]*)(\.[0-9]+)?([eE][+-]?[0-9]+)?`,
returned as its lexeme. -/
def parseNumber (cs : List Char) : Option (String × List Char) :=
  let (sign, cs1) := match cs with
    | '-' :: r => (['-'], r)
    | _ => (([] : List Char), cs)
  match cs1 with
  | '0' :: r =>
      let (fr, r2) := parseFracPart r
      let (ex, r3) := parseExpPart r2
      some (String.mk (sign ++ ['0'] ++ fr ++ ex), r3)
  | c :: r =>
      if c.isDigit && !(c == '0') then
        let (ds, r1) := takeDigits r
        let (fr, r2) := parseFracPart r1
        let (ex, r3) := parseExpPart r2
        some (String.mk (sign ++ (c :: ds) ++ fr ++ ex), r3)
      else none
  | [] => none

mutual

/-- One JSON value at the head of the input. -/
def parseVal : Nat → List Char → Option (Json × List Char)
  | 0, _ => none
  | fuel + 1, cs =>
    match cs with
    | 'n' :: 'u' :: 'l' :: 'l' :: rest => some (.null, rest)
    | 't' :: 'r' :: 'u' :: 'e' :: rest => some (.bool true, rest)
    | 'f' :: 'a' :: 'l' :: 's' :: 'e' :: rest => some (.bool false, rest)
    | '"' :: rest => do
        let (body, rest') ← parseStringBody (fuel + 1) rest
        some (.str (String.mk body), rest')
    | '[' :: rest =>
        match skipWs rest with
        | ']' :: r => some (.arr [], r)
        | r => parseItems fuel r []
    | '\x7b' :: rest =>
        match skipWs rest with
        | '\x7d' :: r => some (.obj [], r)
        | r => parseMembers fuel r []
    | _ => do
        let (lexeme, rest) ← parseNumber cs
        some (.num lexeme, rest)

/-- Comma-separated array items, after the opening bracket. -/
def parseItems : Nat → List Char → List Json → Option (Json × List Char)
  | 0, _, _ => none
  | fuel + 1, cs, acc => do
      let (v, r) ← parseVal fuel cs
      match skipWs r with
      | ',' :: r2 => parseItems fuel (skipWs r2) (v :: acc)
      | ']' :: r2 => some (.arr (v :: acc).reverse, r2)
      | _ => none

/-- Comma-separated object members, after the opening brace. -/
def parseMembers : Nat → List Char → List (String × Json) → Option (Json × List Char)
  | 0, _, _ => none
  | fuel + 1, cs, acc =>
      match cs with
      | '"' :: r => do
          let (kbody, r1) ← parseStringBody (fuel + 1) r
          match skipWs r1 with
          | ':' :: r2 => do
              let (v, r3) ← parseVal fuel (skipWs r2)
              match skipWs r3 with
              | ',' :: r4 => parseMembers fuel (skipWs r4) ((String.mk kbody, v) :: acc)
              | '\x7d' :: r4 => some (.obj ((String.mk kbody, v) :: acc).reverse, r4)
              | _ => none
          | _ => none
      | _ => none

end

/-- Python `json.loads` on a list of characters: parse one value,
tolerate surrounding whitespace, reject leftover input
(`JSONDecodeError` otherwise). -/
def json_loadsChars (cs : List Char) : Except Err Json :=
  match parseVal (2 * cs.length + 8) (skipWs cs) with
  | some (v, rest) =>
      if (skipWs rest).isEmpty then .ok v else .error .jsonDecodeError
  | none => .error .jsonDecodeError

/-- Python `json.loads` on a string. -/
def json_loads (s : String) : Except Err Json :=
  json_loadsChars s.data

/-! The loader `load_rollouts` (lines 4-19 of the source). -/

/-- Effectful map over a list in the `Except` monad, evaluated left to
right with short-circuit on the first error — the order in which Python
evaluates the `key` function of `sorted` over the list. -/
def mapME {α β : Type} (f : α → Except Err β) : List α → Except Err (List β)
  | [] => .ok []
  | x :: xs => do
      let y ← f x
      let ys ← mapME f xs
      pure (y :: ys)

/-- The sort-key lambda `x['prompt']['messages'][1]['content']['parts'][0]`
of line 18. -/
def sortKeyJson (x : Json) : Except Err Json := do
  let p ← getItem x (.strKey "prompt")
  let m ← getItem p (.strKey "messages")
  let m1 ← getItem m (.intKey 1)
  let c ← getItem m1 (.strKey "content")
  let ps ← getItem c (.strKey "parts")
  getItem ps (.intKey 0)

/-- The sort key as a string.  A non-string key makes Python's `sorted`
raise `TypeError` as soon as two keys are compared; this model raises the
`TypeError` unconditionally for non-string keys (the schema declares the
key a string, and any two non-comparable keys would raise). -/
def sortKeyStr (x : Json) : Except Err String := do
  match ← sortKeyJson x with
  | .str s => pure s
  | _ => .error .typeError

/-- Comparison used by `sorted(out, key=...)` on the precomputed keys:
Python `str` comparison is code-point lexicographic, as is Lean's
`String` order. -/
def keyLE (a b : String × Json) : Bool := decide (a.1 ≤ b.1)

/-- The key-decoration step of `sorted(out, key=...)`: pair each record
with its key, propagating errors raised by the key lambda. -/
def keyFn (x : Json) : Except Err (String × Json) := do
  let k ← sortKeyStr x
  pure (k, x)

/-- Whether a record's sort key is exactly the string `k`; used to state
stability of the sort. -/
def hasKey (k : String) (x : Json) : Bool :=
  match sortKeyStr x with
  | .ok s => s == k
  | .error _ => false

/-- Lines 7-17 of `load_rollouts`: split the decoded text into lines,
strip each, skip empty lines, parse the rest, and drop lines raising
`JSONDecodeError`. -/
def parsedLines (cs : List Char) : List Json :=
  (splitlines cs).filterMap fun ln =>
    let s := pyStrip ln
    if s.isEmpty then none else (json_loadsChars s).toOption

/-- `load_rollouts(raw_bytes)`, taken after the UTF-8 decode of line 7
(identical byte blobs decode to identical text, so purity in the text
argument models purity in the bytes).  `sorted` computes every key first
— propagating a lookup/type error from the lambda — and then
stable-sorts; `list(...)` of the sorted list is the identity. -/
def load_rollouts (raw : String) : Except Err (List Json) := do
  let out := parsedLines raw.data
  let keyed ← mapME keyFn out
  pure ((keyed.mergeSort keyLE).map Prod.snd)

/-! The renderer `render_rollout` (lines 21-50 of the source). -/

/-- `msg["author"]["role"]`. -/
def authorRole (msg : Json) : Except Err Json := do
  let a ← getItem msg (.strKey "author")
  getItem a (.strKey "role")

/-- Truthiness of the result of `d.get(k)`: Python `None` (absent key)
is falsy. -/
def truthyOpt : Option Json → Bool
  | none => false
  | some v => truthy v

/-- Lines 39-42: the `elif text := content.get("text")` /
`elif result := content.get("result")` tail of the fallback chain. -/
def resolveTextResult (content : Json) : Except Err (Option Json) := do
  let text ← dictGet content "text"
  if truthyOpt text then pure text
  else do
    let result ← dictGet content "result"
    if truthyOpt result then pure result
    else pure none

/-- Lines 37-42: the walrus-guarded fallback chain starting with
`if parts := content.get("parts"): st.write(parts[0])`.  Each guard tests
Python truthiness; the value written, if any, is returned. -/
def resolveAnalysisContent (content : Json) : Except Err (Option Json) := do
  let parts ← dictGet content "parts"
  match parts with
  | some p =>
      if truthy p then do
        let x ← getItem p (.intKey 0)
        pure (some x)
      else resolveTextResult content
  | none => resolveTextResult content

/-- Whether a JSON value equals the Python string literal `s`, as tested
by `==`/`!=` between an arbitrary value and a `str`. -/
def isStr (j : Json) (s : String) : Bool :=
  match j with
  | .str t => t == s
  | _ => false

/-- One iteration of the analysis loop (lines 32-42): messages whose
`channel` is not `"analysis"` are skipped (`none`); otherwise a chat
bubble labelled `msg["author"]["role"]` is opened and the resolved
content, if any, is written into it. -/
def renderAnalysisMsg (msg : Json) : Except Err (Option (Json × Option Json)) := do
  let ch ← getItem msg (.strKey "channel")
  if isStr ch "analysis" then do
    let role ← authorRole msg
    let contentOpt ← dictGet msg "content"
    let content := contentOpt.getD (.obj [])
    let shown ← resolveAnalysisContent content
    pure (some (role, shown))
  else
    pure none

/-- One iteration of the final loop (lines 45-50): messages whose
`channel` is not `"final"` are skipped (`none`); otherwise
`part = msg.get("content", {}).get("parts", [""])[0]` is computed (before
the author lookup, as in the source) and written in a chat bubble
labelled by the author role. -/
def renderFinalMsg (msg : Json) : Except Err (Option (Json × Json)) := do
  let ch ← getItem msg (.strKey "channel")
  if isStr ch "final" then do
    let contentOpt ← dictGet msg "content"
    let content := contentOpt.getD (.obj [])
    let partsOpt ← dictGet content "parts"
    let parts := partsOpt.getD (.arr [.str ""])
    let part ← getItem parts (.intKey 0)
    let role ← authorRole msg
    pure (some (role, part))
  else
    pure none

/-- The analysis pass over `conversation.messages`: each message is
processed in order, errors propagate at the message that raises them. -/
def renderAnalysis : List Json → Except Err (List (Json × Option Json))
  | [] => .ok []
  | m :: ms => do
      let r ← renderAnalysisMsg m
      let rest ← renderAnalysis ms
      pure (match r with | some x => x :: rest | none => rest)

/-- The final pass over `conversation.messages`. -/
def renderFinal : List Json → Except Err (List (Json × Json))
  | [] => .ok []
  | m :: ms => do
      let r ← renderFinalMsg m
      let rest ← renderFinal ms
      pure (match r with | some x => x :: rest | none => rest)

/-- Python iteration over a JSON value, as in `for msg in ...`: lists
yield their elements, strings their characters, dicts their keys; other
values raise `TypeError`. -/
def pyIter : Json → Except Err (List Json)
  | .arr xs => .ok xs
  | .str s => .ok (s.data.map fun c => .str (String.mk [c]))
  | .obj kvs => .ok (kvs.map fun p => .str p.1)
  | _ => .error .typeError

/-- The visible output of `render_rollout`: the prompt bubble, the
analysis-channel bubbles, and the final-channel bubbles. -/
structure RolloutView where
  promptRole : Json
  promptText : Json
  analysisBlock : List (Json × Option Json)
  finalBlock : List (Json × Json)

/-- `render_rollout(rollout, idx, total)` (the header printed from `idx`
and `total` carries no data from the rollout and is omitted): prompt
block of lines 26-28, analysis block of lines 31-42, final block of
lines 45-50; the final loop re-evaluates
`rollout["conversation"]["messages"]`. -/
def render_rollout (rollout : Json) : Except Err RolloutView := do
  let pmsgs ← getItem (← getItem rollout (.strKey "prompt")) (.strKey "messages")
  let prompt ← getItem pmsgs (.intKey 1)
  let prole ← authorRole prompt
  let pparts ← getItem (← getItem prompt (.strKey "content")) (.strKey "parts")
  let ptext ← getItem pparts (.intKey 0)
  let conv ← getItem (← getItem rollout (.strKey "conversation")) (.strKey "messages")
  let msgs ← pyIter conv
  let analysis ← renderAnalysis msgs
  let conv2 ← getItem (← getItem rollout (.strKey "conversation")) (.strKey "messages")
  let msgs2 ← pyIter conv2
  let finals ← renderFinal msgs2
  pure ⟨prole, ptext, analysis, finals⟩

/-- A two-line input whose records share the sort key "a" and are
distinguished by an `i` field; used to exhibit stability of the sort. -/
def tieInput : String :=
  "\x7b\"i\":1,\"prompt\":\x7b\"messages\":[0,\x7b\"content\":\x7b\"parts\":[\"a\"]\x7d\x7d]\x7d\x7d\n\x7b\"i\":2,\"prompt\":\x7b\"messages\":[0,\x7b\"content\":\x7b\"parts\":[\"a\"]\x7d\x7d]\x7d\x7d"

/-- The record parsed from the first line of `tieInput`. -/
def tieRec1 : Json :=
  .obj [("i", .num "1"), ("prompt", .obj [("messages",
    .arr [.num "0", .obj [("content", .obj [("parts",
    .arr [.str "a"])])]])])]

/-- The record parsed from the second line of `tieInput`. -/
def tieRec2 : Json :=
  .obj [("i", .num "2"), ("prompt", .obj [("messages",
    .arr [.num "0", .obj [("content", .obj [("parts",
    .arr [.str "a"])])]])])]

/-! Reduction lemmas for the `Except` monad. -/

@[simp] theorem ok_bind {α β : Type} (a : α) (f : α → Except Err β) :
    (Except.ok a >>= f) = f a := rfl

@[simp] theorem error_bind {α β : Type} (e : Err) (f : α → Except Err β) :
    ((Except.error e : Except Err α) >>= f) = Except.error e := rfl

@[simp] theorem pure_eq_ok {α : Type} (a : α) :
    (pure a : Except Err α) = Except.ok a := rfl

/-! Lemmas about the key-decoration pass. -/

theorem keyFn_spec {x : Json} {p : String × Json} (h : keyFn x = .ok p) :
    sortKeyStr x = .ok p.1 ∧ p.2 = x := by
  unfold keyFn at h
  cases hk : sortKeyStr x with
  | error e => rw [hk] at h; simp at h
  | ok k =>
      rw [hk] at h
      simp at h
      subst h
      exact ⟨by simp [hk], rfl⟩

theorem mapME_keyFn_ok : ∀ {xs : List Json} {ks : List (String × Json)},
    mapME keyFn xs = .ok ks →
    ks.map Prod.snd = xs ∧ ∀ p ∈ ks, sortKeyStr p.2 = .ok p.1 := by
  intro xs
  induction xs with
  | nil =>
      intro ks h
      simp [mapME] at h
      subst h
      simp
  | cons x xs ih =>
      intro ks h
      unfold mapME at h
      cases hx : keyFn x with
      | error e => rw [hx] at h; simp at h
      | ok p =>
          rw [hx] at h
          cases hrest : mapME keyFn xs with
          | error e => rw [hrest] at h; simp at h
          | ok ps =>
              rw [hrest] at h
              simp at h
              obtain ⟨h1, h2⟩ := keyFn_spec hx
              obtain ⟨ih1, ih2⟩ := ih hrest
              subst h
              refine ⟨by simp [h2, ih1], ?_⟩
              intro q hq
              rcases List.mem_cons.mp hq with hq | hq
              · subst hq; rw [h2]; exact h1
              · exact ih2 q hq

theorem mapME_keyFn_total {xs : List Json}
    (h : ∀ x ∈ xs, (sortKeyStr x).isOk = true) :
    ∃ ks, mapME keyFn xs = .ok ks := by
  induction xs with
  | nil => exact ⟨[], rfl⟩
  | cons x xs ih =>
      obtain ⟨ks, hks⟩ := ih (fun y hy => h y (List.mem_cons_of_mem x hy))
      have hx := h x (List.mem_cons_self x xs)
      cases hk : sortKeyStr x with
      | error e => rw [hk] at hx; simp [Except.isOk, Except.toBool] at hx
      | ok k =>
          refine ⟨(k, x) :: ks, ?_⟩
          have hkx : keyFn x = .ok (k, x) := by unfold keyFn; rw [hk]; rfl
          unfold mapME
          rw [hkx, hks]
          rfl

theorem mapME_keyFn_error {xs : List Json} {x : Json} (hm : x ∈ xs)
    (hx : (sortKeyStr x).isOk = false) :
    ∃ e, mapME keyFn xs = .error e := by
  induction xs with
  | nil => cases hm
  | cons y ys ih =>
      rcases List.mem_cons.mp hm with hy | hy
      · subst hy
        cases hk : sortKeyStr x with
        | error e =>
            refine ⟨e, ?_⟩
            have hkx : keyFn x = .error e := by unfold keyFn; rw [hk]; rfl
            unfold mapME
            rw [hkx]
            rfl
        | ok k => rw [hk] at hx; simp [Except.isOk, Except.toBool] at hx
      · cases hk : keyFn y with
        | error e =>
            refine ⟨e, ?_⟩
            unfold mapME
            rw [hk]
            rfl
        | ok p =>
            obtain ⟨e, he⟩ := ih hy
            refine ⟨e, ?_⟩
            unfold mapME
            rw [hk, he]
            rfl

theorem mapME_sortKeyStr_of_pairs :
    ∀ {ps : List (String × Json)},
      (∀ p ∈ ps, sortKeyStr p.2 = .ok p.1) →
      mapME sortKeyStr (ps.map Prod.snd) = .ok (ps.map Prod.fst) := by
  intro ps
  induction ps with
  | nil => intro _; rfl
  | cons p ps ih =>
      intro h
      have hp := h p (List.mem_cons_self p ps)
      have hrest := ih (fun q hq => h q (List.mem_cons_of_mem p hq))
      simp only [List.map_cons]
      unfold mapME
      rw [hp, hrest]
      rfl

theorem keyLE_trans (a b c : String × Json)
    (h1 : keyLE a b = true) (h2 : keyLE b c = true) : keyLE a c = true := by
  simp only [keyLE, decide_eq_true_iff] at h1 h2 ⊢
  exact le_trans h1 h2

theorem keyLE_total (a b : String × Json) : (keyLE a b || keyLE b a) = true := by
  simp only [keyLE, Bool.or_eq_true, decide_eq_true_iff]
  exact le_total a.1 b.1

theorem length_filterMap_eq_countP {α β : Type} (f : α → Option β) :
    ∀ l : List α, (l.filterMap f).length = l.countP (fun a => (f a).isSome) := by
  intro l
  induction l with
  | nil => rfl
  | cons x xs ih =>
      cases hx : f x <;>
        simp [List.filterMap_cons, List.countP_cons, hx, ih]

theorem parsedLines_length (cs : List Char) :
    (parsedLines cs).length = (splitlines cs).countP
      (fun ln => !(pyStrip ln).isEmpty && (json_loadsChars (pyStrip ln)).isOk) := by
  unfold parsedLines
  rw [length_filterMap_eq_countP]
  apply List.countP_congr
  intro ln _
  by_cases hempty : (pyStrip ln).isEmpty
  · simp [hempty]
  · cases hp : json_loadsChars (pyStrip ln) <;>
      simp [hempty, hp, Except.toOption, Except.isOk, Except.toBool]

theorem mergeSort_filter_key (keyed : List (String × Json)) (k : String) :
    (keyed.mergeSort keyLE).filter (fun p => p.1 == k) =
      keyed.filter (fun p => p.1 == k) := by
  have hF : ∀ p ∈ keyed.filter (fun p => p.1 == k), p.1 = k := by
    intro p hp
    have := (List.mem_filter.mp hp).2
    simpa using this
  have hpair : (keyed.filter (fun p => p.1 == k)).Pairwise
      (fun a b => keyLE a b = true) := by
    apply List.pairwise_of_forall_mem_list
    intro a ha b hb
    simp [keyLE, hF a ha, hF b hb]
  have hsub : (keyed.filter (fun p => p.1 == k)).Sublist (keyed.mergeSort keyLE) :=
    List.sublist_mergeSort keyLE_trans keyLE_total hpair (List.filter_sublist keyed)
  have hsub2 : (keyed.filter (fun p => p.1 == k)).Sublist
      ((keyed.mergeSort keyLE).filter (fun p => p.1 == k)) := by
    have h := List.Sublist.filter (fun p => p.1 == k) hsub
    rwa [List.filter_eq_self.mpr (fun a ha => by simp [hF a ha])] at h
  have hperm : ((keyed.mergeSort keyLE).filter (fun p => p.1 == k)).Perm
      (keyed.filter (fun p => p.1 == k)) :=
    (List.mergeSort_perm keyed keyLE).filter _
  exact (hsub2.eq_of_length hperm.length_eq.symm).symm

theorem filter_hasKey_map_snd (k : String) :
    ∀ {ps : List (String × Json)},
      (∀ p ∈ ps, sortKeyStr p.2 = .ok p.1) →
      (ps.map Prod.snd).filter (hasKey k) =
        (ps.filter (fun p => p.1 == k)).map Prod.snd := by
  intro ps
  induction ps with
  | nil => intro _; rfl
  | cons p ps ih =>
      intro h
      have hp := h p (List.mem_cons_self p ps)
      have hrest := ih (fun q hq => h q (List.mem_cons_of_mem p hq))
      have hkey : hasKey k p.2 = (p.1 == k) := by unfold hasKey; rw [hp]
      simp only [List.map_cons, List.filter_cons, hkey, hrest]
      by_cases hc : (p.1 == k) = true
      · simp [hc]
      · simp [hc]

theorem load_rollouts_eq (raw : String) :
    load_rollouts raw =
      (mapME keyFn (parsedLines raw.data) >>= fun keyed =>
        pure ((keyed.mergeSort keyLE).map Prod.snd)) := rfl

/-! The claim theorems about the loader. -/

/-- C1: for every input (its text, after the UTF-8 decode of line 7) in
which each successfully JSON-parsed line contains the nested path
`prompt.messages[1].content.parts[0]` as a string, `load_rollouts`
returns a list whose sequence of extracted prompt texts is non-decreasing
in lexicographic string order. -/
theorem load_rollouts_sorted (raw : String)
    (h : ∀ x ∈ parsedLines raw.data, (sortKeyStr x).isOk = true) :
    ∃ l ks, load_rollouts raw = .ok l ∧ mapME sortKeyStr l = .ok ks ∧
      ks.Pairwise (· ≤ ·) := by
  obtain ⟨keyed, hk⟩ := mapME_keyFn_total h
  obtain ⟨hsnd, hinv⟩ := mapME_keyFn_ok hk
  refine ⟨(keyed.mergeSort keyLE).map Prod.snd,
    (keyed.mergeSort keyLE).map Prod.fst, ?_, ?_, ?_⟩
  · rw [load_rollouts_eq, hk]
    rfl
  · exact mapME_sortKeyStr_of_pairs
      (fun p hp => hinv p (List.mem_mergeSort.mp hp))
  · have hs := List.sorted_mergeSort keyLE_trans keyLE_total keyed
    rw [List.pairwise_map]
    exact hs.imp (fun hab => by simpa [keyLE] using hab)

/-- Witness for C1: a two-line input whose prompt texts arrive as "b"
then "a". -/
theorem load_rollouts_sorted_witness :
    ∃ l ks,
      load_rollouts "\x7b\"prompt\":\x7b\"messages\":[0,\x7b\"content\":\x7b\"parts\":[\"b\"]\x7d\x7d]\x7d\x7d\n\x7b\"prompt\":\x7b\"messages\":[0,\x7b\"content\":\x7b\"parts\":[\"a\"]\x7d\x7d]\x7d\x7d" = .ok l ∧
      mapME sortKeyStr l = .ok ks ∧ ks.Pairwise (· ≤ ·) :=
  load_rollouts_sorted
    "\x7b\"prompt\":\x7b\"messages\":[0,\x7b\"content\":\x7b\"parts\":[\"b\"]\x7d\x7d]\x7d\x7d\n\x7b\"prompt\":\x7b\"messages\":[0,\x7b\"content\":\x7b\"parts\":[\"a\"]\x7d\x7d]\x7d\x7d"
    (by decide)

/-- C3: when some successfully parsed line lacks the nested sort-key path
(missing key, too-short list, or non-mapping value, so the key lambda
raises a lookup/type error), `load_rollouts` propagates an error to the
caller instead of dropping the line or returning a partial list. -/
theorem load_rollouts_error_on_missing_path (raw : String)
    (h : ∃ x ∈ parsedLines raw.data, (sortKeyJson x).isOk = false) :
    ∃ e, load_rollouts raw = .error e := by
  obtain ⟨x, hm, hx⟩ := h
  have hx' : (sortKeyStr x).isOk = false := by
    unfold sortKeyStr
    cases hj : sortKeyJson x with
    | error e => rfl
    | ok v => rw [hj] at hx; simp [Except.isOk, Except.toBool] at hx
  obtain ⟨e, he⟩ := mapME_keyFn_error hm hx'
  refine ⟨e, ?_⟩
  rw [load_rollouts_eq, he]
  rfl

/-- Witness for C3: a single valid JSON line with no `prompt` key. -/
theorem load_rollouts_error_on_missing_path_witness :
    ∃ e, load_rollouts "\x7b\"a\":1\x7d" = .error e :=
  load_rollouts_error_on_missing_path "\x7b\"a\":1\x7d" (by decide)

/-- C4: the loaded list has exactly one record per non-blank line that
parses as JSON (each such record carrying the sort key the schema
declares); unparseable lines and blank or whitespace-only lines
contribute nothing and cause no error. -/
theorem load_rollouts_drop_invalid (raw : String)
    (h : ∀ x ∈ parsedLines raw.data, (sortKeyStr x).isOk = true) :
    ∃ l, load_rollouts raw = .ok l ∧
      l.length = (splitlines raw.data).countP
        (fun ln => !(pyStrip ln).isEmpty && (json_loadsChars (pyStrip ln)).isOk) := by
  obtain ⟨keyed, hk⟩ := mapME_keyFn_total h
  obtain ⟨hsnd, hinv⟩ := mapME_keyFn_ok hk
  refine ⟨(keyed.mergeSort keyLE).map Prod.snd, ?_, ?_⟩
  · rw [load_rollouts_eq, hk]
    rfl
  · have h2 : keyed.length = (parsedLines raw.data).length := by
      rw [← hsnd]; simp
    simp only [List.length_map, List.length_mergeSort]
    rw [h2, parsedLines_length]

/-- Witness for C4: one valid keyed line, one non-JSON line, one
whitespace-only line. -/
theorem load_rollouts_drop_invalid_witness :
    ∃ l, load_rollouts "\x7b\"prompt\":\x7b\"messages\":[0,\x7b\"content\":\x7b\"parts\":[\"a\"]\x7d\x7d]\x7d\x7d\nnot json\n   \n" = .ok l ∧
      l.length = (splitlines "\x7b\"prompt\":\x7b\"messages\":[0,\x7b\"content\":\x7b\"parts\":[\"a\"]\x7d\x7d]\x7d\x7d\nnot json\n   \n".data).countP
        (fun ln => !(pyStrip ln).isEmpty && (json_loadsChars (pyStrip ln)).isOk) :=
  load_rollouts_drop_invalid
    "\x7b\"prompt\":\x7b\"messages\":[0,\x7b\"content\":\x7b\"parts\":[\"a\"]\x7d\x7d]\x7d\x7d\nnot json\n   \n"
    (by decide)

/-- C7: `load_rollouts` is a pure function of its input text (hence of
the input bytes, whose UTF-8 decode is a function): identical content
yields element-wise identical results; there is no randomness. -/
theorem load_rollouts_deterministic (r1 r2 : String) (h : r1 = r2) :
    load_rollouts r1 = load_rollouts r2 := by rw [h]

/-- Witness for C7 at a concrete one-line input. -/
theorem load_rollouts_deterministic_witness :
    load_rollouts "\x7b\"prompt\":\x7b\"messages\":[0,\x7b\"content\":\x7b\"parts\":[\"a\"]\x7d\x7d]\x7d\x7d" =
      load_rollouts "\x7b\"prompt\":\x7b\"messages\":[0,\x7b\"content\":\x7b\"parts\":[\"a\"]\x7d\x7d]\x7d\x7d" :=
  load_rollouts_deterministic
    "\x7b\"prompt\":\x7b\"messages\":[0,\x7b\"content\":\x7b\"parts\":[\"a\"]\x7d\x7d]\x7d\x7d"
    "\x7b\"prompt\":\x7b\"messages\":[0,\x7b\"content\":\x7b\"parts\":[\"a\"]\x7d\x7d]\x7d\x7d"
    rfl

/-- C10: the sort is stable: for any key string `k`, the loaded records
whose sort key is `k` appear in exactly the relative order in which
their lines appeared in the input. -/
theorem load_rollouts_stable (raw : String) (l : List Json)
    (h : load_rollouts raw = .ok l) (k : String) :
    l.filter (hasKey k) = (parsedLines raw.data).filter (hasKey k) := by
  rw [load_rollouts_eq] at h
  cases hk : mapME keyFn (parsedLines raw.data) with
  | error e => rw [hk] at h; simp at h
  | ok keyed =>
      rw [hk] at h
      simp at h
      obtain ⟨hsnd, hinv⟩ := mapME_keyFn_ok hk
      have hinv' : ∀ p ∈ keyed.mergeSort keyLE, sortKeyStr p.2 = .ok p.1 :=
        fun p hp => hinv p (List.mem_mergeSort.mp hp)
      rw [← h, filter_hasKey_map_snd k hinv', mergeSort_filter_key,
        ← filter_hasKey_map_snd k hinv, hsnd]

/-- Witness for C10: two records with the same sort key "a",
distinguished by an `i` field, stay in input order. -/
theorem load_rollouts_stable_witness :
    List.filter (hasKey "a") [tieRec1, tieRec2] =
      List.filter (hasKey "a") (parsedLines tieInput.data) :=
  load_rollouts_stable tieInput [tieRec1, tieRec2]
    (by
      rw [load_rollouts_eq,
        show mapME keyFn (parsedLines tieInput.data) =
          .ok [("a", tieRec1), ("a", tieRec2)] from rfl,
        ok_bind,
        List.mergeSort_of_sorted
          (List.pairwise_of_forall_mem_list (by
            intro a ha b hb
            fin_cases ha <;> fin_cases hb <;> simp [keyLE]))]
      rfl) "a"

/-! The claim theorems about the renderer. -/

theorem renderAnalysis_error_of_mem : ∀ {msgs : List Json} {msg : Json},
    msg ∈ msgs → (renderAnalysisMsg msg).isOk = false →
    (renderAnalysis msgs).isOk = false := by
  intro msgs
  induction msgs with
  | nil => intro msg hm; cases hm
  | cons m ms ih =>
      intro msg hm herr
      rcases List.mem_cons.mp hm with hm | hm
      · subst hm
        unfold renderAnalysis
        cases hr : renderAnalysisMsg msg with
        | error e => rfl
        | ok r => rw [hr] at herr; simp [Except.isOk, Except.toBool] at herr
      · unfold renderAnalysis
        cases hr : renderAnalysisMsg m with
        | error e => rfl
        | ok r =>
            have hrec := ih hm herr
            simp only [ok_bind]
            cases hrest : renderAnalysis ms with
            | error e => rfl
            | ok rest =>
                rw [hrest] at hrec
                simp [Except.isOk, Except.toBool] at hrec

theorem renderFinal_error_of_mem : ∀ {msgs : List Json} {msg : Json},
    msg ∈ msgs → (renderFinalMsg msg).isOk = false →
    (renderFinal msgs).isOk = false := by
  intro msgs
  induction msgs with
  | nil => intro msg hm; cases hm
  | cons m ms ih =>
      intro msg hm herr
      rcases List.mem_cons.mp hm with hm | hm
      · subst hm
        unfold renderFinal
        cases hr : renderFinalMsg msg with
        | error e => rfl
        | ok r => rw [hr] at herr; simp [Except.isOk, Except.toBool] at herr
      · unfold renderFinal
        cases hr : renderFinalMsg m with
        | error e => rfl
        | ok r =>
            have hrec := ih hm herr
            simp only [ok_bind]
            cases hrest : renderFinal ms with
            | error e => rfl
            | ok rest =>
                rw [hrest] at hrec
                simp [Except.isOk, Except.toBool] at hrec

/-- C2, counterexample: an analysis-channel message whose content has
`text` bound to the empty string and `result` bound to "r" (and no
`parts`) displays the value of `result`, not the value of `text` — the
code's guards test truthiness, not presence. -/
theorem analysis_shows_result_when_text_empty :
    renderAnalysisMsg (.obj [("channel", .str "analysis"),
        ("author", .obj [("role", .str "assistant")]),
        ("content", .obj [("text", .str ""), ("result", .str "r")])]) =
      .ok (some (.str "assistant", some (.str "r"))) ∧
    Json.str "r" ≠ Json.str "" := by
  refine ⟨rfl, ?_⟩
  intro hcontra
  injection hcontra with h
  exact absurd h (by decide)

/-- C2, amended: the fallback chain resolves by truthiness priority
`parts` → `text` → `result` (not presence priority): for an
analysis-channel message whose content mapping has `text` and `result`
but no `parts`, the displayed content is the value of `text` provided
that value is truthy (e.g. a non-empty string); a falsy `text` falls
through to `result`. -/
theorem analysis_truthy_text_wins (role t r : Json) (ht : truthy t = true) :
    renderAnalysisMsg (.obj [("channel", .str "analysis"),
        ("author", .obj [("role", role)]),
        ("content", .obj [("text", t), ("result", r)])]) =
      .ok (some (role, some t)) := by
  have hch : getItem (Json.obj [("channel", .str "analysis"),
      ("author", .obj [("role", role)]),
      ("content", .obj [("text", t), ("result", r)])]) (.strKey "channel") =
      .ok (.str "analysis") := rfl
  unfold renderAnalysisMsg
  rw [hch]
  simp only [ok_bind]
  rw [show isStr (Json.str "analysis") "analysis" = true from rfl]
  simp only [if_true]
  have hrole : authorRole (Json.obj [("channel", .str "analysis"),
      ("author", .obj [("role", role)]),
      ("content", .obj [("text", t), ("result", r)])]) = .ok role := rfl
  rw [hrole]
  simp only [ok_bind]
  have hcontent : dictGet (Json.obj [("channel", .str "analysis"),
      ("author", .obj [("role", role)]),
      ("content", .obj [("text", t), ("result", r)])]) "content" =
      .ok (some (.obj [("text", t), ("result", r)])) := rfl
  rw [hcontent]
  simp only [ok_bind, Option.getD_some]
  have hres : resolveAnalysisContent (.obj [("text", t), ("result", r)]) =
      .ok (some t) := by
    unfold resolveAnalysisContent
    rw [show dictGet (Json.obj [("text", t), ("result", r)]) "parts" =
      .ok none from rfl]
    simp only [ok_bind]
    unfold resolveTextResult
    rw [show dictGet (Json.obj [("text", t), ("result", r)]) "text" =
      .ok (some t) from rfl]
    simp only [ok_bind]
    rw [show truthyOpt (some t) = truthy t from rfl, ht]
    simp
  rw [hres]
  rfl

/-- Witness for the amended C2: truthy text "x" wins over result "y". -/
theorem analysis_truthy_text_wins_witness :
    renderAnalysisMsg (.obj [("channel", .str "analysis"),
        ("author", .obj [("role", .str "u")]),
        ("content", .obj [("text", .str "x"), ("result", .str "y")])]) =
      .ok (some (.str "u", some (.str "x"))) :=
  analysis_truthy_text_wins (.str "u") (.str "x") (.str "y") (by decide)

/-- C5: the analysis pass renders a message only when its `channel`
equals the string "analysis" and never skips one whose channel is
"analysis"; symmetrically for the final pass and "final"; a message
whose channel is any other value is skipped by both passes. -/
theorem channel_filtering (msg ch : Json)
    (h : getItem msg (.strKey "channel") = .ok ch) :
    (isStr ch "analysis" = false → renderAnalysisMsg msg = .ok none) ∧
    (isStr ch "final" = false → renderFinalMsg msg = .ok none) ∧
    (isStr ch "analysis" = true →
      ∀ o, renderAnalysisMsg msg = .ok o → o ≠ none) ∧
    (isStr ch "final" = true →
      ∀ o, renderFinalMsg msg = .ok o → o ≠ none) := by
  refine ⟨?_, ?_, ?_, ?_⟩
  · intro hfalse
    unfold renderAnalysisMsg
    rw [h]
    simp [hfalse]
  · intro hfalse
    unfold renderFinalMsg
    rw [h]
    simp [hfalse]
  · intro htrue o ho
    unfold renderAnalysisMsg at ho
    rw [h] at ho
    simp only [ok_bind, htrue, if_true] at ho
    cases h1 : authorRole msg with
    | error e => rw [h1] at ho; simp at ho
    | ok role =>
        rw [h1] at ho
        simp only [ok_bind] at ho
        cases h2 : dictGet msg "content" with
        | error e => rw [h2] at ho; simp at ho
        | ok copt =>
            rw [h2] at ho
            simp only [ok_bind] at ho
            cases h3 : resolveAnalysisContent (copt.getD (.obj [])) with
            | error e => rw [h3] at ho; simp at ho
            | ok shown =>
                rw [h3] at ho
                simp only [ok_bind, pure_eq_ok, Except.ok.injEq] at ho
                rw [← ho]
                simp
  · intro htrue o ho
    unfold renderFinalMsg at ho
    rw [h] at ho
    simp only [ok_bind, htrue, if_true] at ho
    cases h1 : dictGet msg "content" with
    | error e => rw [h1] at ho; simp at ho
    | ok copt =>
        rw [h1] at ho
        simp only [ok_bind] at ho
        cases h2 : dictGet (copt.getD (.obj [])) "parts" with
        | error e => rw [h2] at ho; simp at ho
        | ok popt =>
            rw [h2] at ho
            simp only [ok_bind] at ho
            cases h3 : getItem (popt.getD (.arr [.str ""])) (.intKey 0) with
            | error e => rw [h3] at ho; simp at ho
            | ok part =>
                rw [h3] at ho
                simp only [ok_bind] at ho
                cases h4 : authorRole msg with
                | error e => rw [h4] at ho; simp at ho
                | ok role =>
                    rw [h4] at ho
                    simp only [ok_bind, pure_eq_ok, Except.ok.injEq] at ho
                    rw [← ho]
                    simp

/-- Witness for C5 at a message whose channel is the string "other":
both passes skip it. -/
theorem channel_filtering_witness :
    renderAnalysisMsg (.obj [("channel", .str "other")]) = .ok none ∧
    renderFinalMsg (.obj [("channel", .str "other")]) = .ok none := by
  have h := channel_filtering (.obj [("channel", .str "other")])
    (.str "other") rfl
  exact ⟨h.1 rfl, h.2.1 rfl⟩

/-- C6: a final-channel message displays `content.parts[0]` when the
content mapping has a `parts` list with a first element, and the empty
string — with no error — when `parts` is absent from the content mapping
or the `content` key itself is absent. -/
theorem final_parts_or_default (msg role content : Json)
    (hch : getItem msg (.strKey "channel") = .ok (.str "final"))
    (hrole : authorRole msg = .ok role) :
    (∀ v vs, dictGet msg "content" = .ok (some content) →
      dictGet content "parts" = .ok (some (.arr (v :: vs))) →
      renderFinalMsg msg = .ok (some (role, v))) ∧
    (dictGet msg "content" = .ok (some content) →
      dictGet content "parts" = .ok none →
      renderFinalMsg msg = .ok (some (role, .str ""))) ∧
    (dictGet msg "content" = .ok none →
      renderFinalMsg msg = .ok (some (role, .str ""))) := by
  refine ⟨?_, ?_, ?_⟩
  · intro v vs hc hp
    unfold renderFinalMsg
    rw [hch]
    simp only [ok_bind]
    rw [show isStr (Json.str "final") "final" = true from rfl]
    simp only [if_true]
    rw [hc]
    simp only [ok_bind, Option.getD_some]
    rw [hp]
    simp only [ok_bind, Option.getD_some]
    rw [show getItem (Json.arr (v :: vs)) (.intKey 0) = .ok v from rfl, hrole]
    rfl
  · intro hc hp
    unfold renderFinalMsg
    rw [hch]
    simp only [ok_bind]
    rw [show isStr (Json.str "final") "final" = true from rfl]
    simp only [if_true]
    rw [hc]
    simp only [ok_bind, Option.getD_some]
    rw [hp]
    simp only [ok_bind, Option.getD_none]
    rw [show getItem (Json.arr [Json.str ""]) (.intKey 0) =
      .ok (.str "") from rfl, hrole]
    rfl
  · intro hc
    unfold renderFinalMsg
    rw [hch]
    simp only [ok_bind]
    rw [show isStr (Json.str "final") "final" = true from rfl]
    simp only [if_true]
    rw [hc]
    simp only [ok_bind, Option.getD_none]
    rw [show dictGet (Json.obj []) "parts" = .ok none from rfl]
    simp only [ok_bind, Option.getD_none]
    rw [show getItem (Json.arr [Json.str ""]) (.intKey 0) =
      .ok (.str "") from rfl, hrole]
    rfl

/-- Witness for C6: parts ["x"] present on the one hand, parts absent on
the other. -/
theorem final_parts_or_default_witness :
    renderFinalMsg (.obj [("channel", .str "final"),
        ("author", .obj [("role", .str "assistant")]),
        ("content", .obj [("parts", .arr [.str "x"])])]) =
      .ok (some (.str "assistant", .str "x")) ∧
    renderFinalMsg (.obj [("channel", .str "final"),
        ("author", .obj [("role", .str "assistant")]),
        ("content", .obj [("note", .str "n")])]) =
      .ok (some (.str "assistant", .str "")) := by
  have h1 := final_parts_or_default
    (.obj [("channel", .str "final"),
      ("author", .obj [("role", .str "assistant")]),
      ("content", .obj [("parts", .arr [.str "x"])])])
    (.str "assistant") (.obj [("parts", .arr [.str "x"])]) rfl rfl
  have h2 := final_parts_or_default
    (.obj [("channel", .str "final"),
      ("author", .obj [("role", .str "assistant")]),
      ("content", .obj [("note", .str "n")])])
    (.str "assistant") (.obj [("note", .str "n")]) rfl rfl
  exact ⟨h1.1 (.str "x") [] rfl rfl, h2.2.1 rfl rfl⟩

/-- C8: a final-channel message whose content mapping binds `parts` to
the empty list raises `IndexError` (the `[""]` default applies only when
the key is absent, not when it is present and empty). -/
theorem final_empty_parts_raises (msg content : Json)
    (hch : getItem msg (.strKey "channel") = .ok (.str "final"))
    (hc : dictGet msg "content" = .ok (some content))
    (hp : dictGet content "parts" = .ok (some (.arr []))) :
    renderFinalMsg msg = .error .indexError := by
  unfold renderFinalMsg
  rw [hch]
  simp only [ok_bind]
  rw [show isStr (Json.str "final") "final" = true from rfl]
  simp only [if_true]
  rw [hc]
  simp only [ok_bind, Option.getD_some]
  rw [hp]
  simp only [ok_bind, Option.getD_some]
  rw [show getItem (Json.arr []) (.intKey 0) = .error .indexError from rfl]
  rfl

/-- Witness for C8 at a concrete message with `parts: []`. -/
theorem final_empty_parts_raises_witness :
    renderFinalMsg (.obj [("channel", .str "final"),
        ("content", .obj [("parts", .arr [])])]) = .error .indexError :=
  final_empty_parts_raises
    (.obj [("channel", .str "final"), ("content", .obj [("parts", .arr [])])])
    (.obj [("parts", .arr [])]) rfl rfl rfl

/-- C9: a conversation message that lacks the `channel` key makes both
the analysis pass and the final pass raise a `KeyError` that propagates —
the message is not silently skipped the way an unrecognized channel
value is. -/
theorem missing_channel_raises (msgs : List Json) (msg : Json)
    (kvs : List (String × Json)) (hm : msg = .obj kvs)
    (hk : lookupKv kvs "channel" = none) (hmem : msg ∈ msgs) :
    renderAnalysisMsg msg = .error .keyError ∧
    renderFinalMsg msg = .error .keyError ∧
    (renderAnalysis msgs).isOk = false ∧
    (renderFinal msgs).isOk = false := by
  subst hm
  have hch : getItem (Json.obj kvs) (.strKey "channel") = .error .keyError := by
    simp [getItem, hk]
  have ha : renderAnalysisMsg (Json.obj kvs) = .error .keyError := by
    unfold renderAnalysisMsg
    rw [hch]
    rfl
  have hf : renderFinalMsg (Json.obj kvs) = .error .keyError := by
    unfold renderFinalMsg
    rw [hch]
    rfl
  exact ⟨ha, hf,
    renderAnalysis_error_of_mem hmem (by rw [ha]; rfl),
    renderFinal_error_of_mem hmem (by rw [hf]; rfl)⟩

/-- Witness for C9: the empty mapping as the only conversation
message. -/
theorem missing_channel_raises_witness :
    renderAnalysisMsg (Json.obj []) = .error .keyError ∧
    renderFinalMsg (Json.obj []) = .error .keyError ∧
    (renderAnalysis [Json.obj []]).isOk = false ∧
    (renderFinal [Json.obj []]).isOk = false :=
  missing_channel_raises [Json.obj []] (Json.obj []) [] rfl rfl
    (List.mem_singleton.mpr rfl)

end Rollouts
